import Mathlib
/-!
Verification of the feature-visibility-toggle plugin core
(`feature_visibility_toggle.py`): the visibility-flag model, the filter
predicate evaluator, the settings (de)serialization, and the layer filter
update.  Python strings are modelled as `List Char`; Python `None` / null
attribute values are modelled by an explicit `Value.null` constructor;
Python floats are modelled as exact decimal rationals.
-/
set_option maxHeartbeats 1000000

/-! ## Definitions (shallow embedding of the source) -/

abbrev Str := List Char

/-- Fuelled scanner for Python `str.replace(old, new)`: leftmost,
non-overlapping, replacements are not rescanned.  The fuel decreases by one
each step; one fuel unit per input character suffices because every step
consumes at least one character. -/
def replFuel (old new : Str) : Nat → Str → Str
  | _, [] => []
  | 0, s => s
  | n + 1, c :: rest =>
    if old ≠ [] ∧ old.isPrefixOf (c :: rest) then
      new ++ replFuel old new n (rest.drop (old.length - 1))
    else
      c :: replFuel old new n rest

/-- Python `s.replace(old, new)` for a non-empty pattern `old`. -/
def pyReplace (old new s : Str) : Str := replFuel old new s.length s

/-- Substring test (Python `pat in s`), scanning left to right. -/
def containsSub (pat : Str) : Str → Bool
  | [] => pat.isEmpty
  | c :: rest => pat.isPrefixOf (c :: rest) || containsSub pat rest

/-- First occurrence of a separator character: Python `s.split(sep, 1)`
step.  Returns the part before the separator and the remainder. -/
def splitFirst (sep : Char) : Str → Option (Str × Str)
  | [] => none
  | c :: rest =>
    if c = sep then some ([], rest)
    else (splitFirst sep rest).map (fun p => (c :: p.1, p.2))

/-- Python `s.split(sep, maxsplit)` for a single-character separator. -/
def pySplitN (sep : Char) : Nat → Str → List Str
  | 0, s => [s]
  | n + 1, s =>
    match splitFirst sep s with
    | none => [s]
    | some (a, b) => a :: pySplitN sep n b

/-- Python `s.split(sep)` (unbounded) for a single-character separator. -/
def pySplitAll (sep : Char) : Str → List Str
  | [] => [[]]
  | c :: rest =>
    if c = sep then [] :: pySplitAll sep rest
    else
      match pySplitAll sep rest with
      | [] => [[c]]
      | a :: as => (c :: a) :: as

/-- Python `sep.join(parts)` for a single-character separator. -/
def joinSep (sep : Char) : List Str → Str
  | [] => []
  | [p] => p
  | p :: q :: rest => p ++ sep :: joinSep sep (q :: rest)

def sCOLON : Str := [':']

def tCOLON : Str := ['_', 'C', 'O', 'L', 'O', 'N', '_']

def sPIPE : Str := ['|']

def tPIPE : Str := ['_', 'P', 'I', 'P', 'E', '_']

/-- Component escaping used by `save_settings` (lines 726-728):
`.replace(":", "_COLON_").replace("|", "_PIPE_")`. -/
def escapeComp (s : Str) : Str :=
  pyReplace sPIPE tPIPE (pyReplace sCOLON tCOLON s)

/-- Component unescaping used by `load_settings` (lines 684-686):
`.replace("_COLON_", ":").replace("_PIPE_", "|")`. -/
def unescapeComp (s : Str) : Str :=
  pyReplace tPIPE sPIPE (pyReplace tCOLON sCOLON s)

/-- Per-character expansion performed by `escapeComp`. -/
def escFun (c : Char) : Str :=
  if c = ':' then tCOLON else if c = '|' then tPIPE else [c]

/-- Per-character shape of the intermediate string after undoing the colon
escapes: colons restored, pipes still escaped. -/
def midFun (c : Char) : Str :=
  if c = '|' then tPIPE else [c]

def wCOLON : Str := ['C', 'O', 'L', 'O', 'N']

def wPIPE : Str := ['P', 'I', 'P', 'E']

/-- A settings component is safe for the escape/unescape round trip when it
does not contain the letter runs `COLON` or `PIPE` (in particular it
contains neither escape token). -/
def compSafe (s : Str) : Bool :=
  !(containsSub wCOLON s) && !(containsSub wPIPE s)

/-- One persisted filter rule: field name, comparison kind, comparison
value (the Python mapping `field_name -> {'type': ..., 'value': ...}`
flattened in insertion order). -/
abbrev FilterTriple := Str × Str × Str

/-- One serialized triple, `f"{field_escaped}:{type_escaped}:{value_escaped}"`
(save_settings line 729). -/
def partOf (r : FilterTriple) : Str :=
  escapeComp r.1 ++ (':' :: (escapeComp r.2.1 ++ (':' :: escapeComp r.2.2)))

/-- Serialization of one layer's filter rules performed by `save_settings`
(lines 722-731): escape each component, join each rule as
`field:kind:value`, join the rules with `|`. -/
def serializeFilters (rules : List FilterTriple) : Str :=
  joinSep '|' (rules.map partOf)

/-- Python dict insertion on an insertion-ordered association list:
overwriting an existing key keeps its position, a new key is appended. -/
def dictInsert (m : List FilterTriple) (k : Str) (kv : Str × Str) :
    List FilterTriple :=
  if m.any (fun p => p.1 == k) then
    m.map (fun p => if p.1 == k then (k, kv) else p)
  else m ++ [(k, kv)]

/-- Parsing of one layer's persisted filter string performed by
`load_settings` (lines 674-692): split on `|`; for each part containing a
`:`, split on `:` with maxsplit 2, and when that yields at least three
pieces unescape them and store the rule in the dict. -/
def parseFilters (s : Str) : List FilterTriple :=
  (pySplitAll '|' s).foldl
    (fun acc part =>
      if ':' ∈ part then
        match pySplitN ':' 2 part with
        | [a, b, c] => dictInsert acc (unescapeComp a) (unescapeComp b, unescapeComp c)
        | _ => acc
      else acc) []

/-- A feature attribute value: Python `None`/NULL, an integer, or a
string.  (Real-valued attributes are representable as decimal strings.) -/
inductive Value where
  | null : Value
  | int : Int → Value
  | str : Str → Value
deriving DecidableEq

/-- Python `str(value)` for the modelled values. -/
def pyStr : Value → Str
  | .null => ("None").toList
  | .int n => (toString n).toList
  | .str s => s

/-- Python `str.lower()` (ASCII case folding). -/
def pyLower (s : Str) : Str := s.map Char.toLower

/-- Python `str.strip()`: whitespace removed from both ends. -/
def pyStrip (s : Str) : Str :=
  ((s.dropWhile Char.isWhitespace).reverse.dropWhile Char.isWhitespace).reverse

def natVal (ds : Str) : Nat :=
  ds.foldl (fun acc c => 10 * acc + (c.toNat - ('0').toNat)) 0

/-- An exact decimal number `mant / 10 ^ scale`: the value of every float
the code ever compares (they all come from `float()` on decimal text or
from integer attributes). -/
structure Dec where
  mant : Int
  scale : Nat
deriving DecidableEq

/-- The rational value of an exact decimal. -/
def Dec.toRat (d : Dec) : ℚ := (d.mant : ℚ) / 10 ^ d.scale

/-- Strict comparison of exact decimals by cross multiplication. -/
def Dec.blt (x y : Dec) : Bool :=
  decide (x.mant * 10 ^ y.scale < y.mant * 10 ^ x.scale)

/-- Decimal fragment of Python `float(str)`: optional sign, digits with an
optional single decimal point, surrounding whitespace ignored.  Exponents
and the special values are not modelled; every string accepted here is
accepted by Python with the same value, and letter strings like "abc" are
rejected (`ValueError`) there as here. -/
def parseFloat (s0 : Str) : Option Dec :=
  let s1 := pyStrip s0
  let sgn : Int × Str :=
    match s1 with
    | '+' :: r => (1, r)
    | '-' :: r => (-1, r)
    | _ => (1, s1)
  match splitFirst '.' sgn.2 with
  | none =>
    if sgn.2 ≠ [] ∧ sgn.2.all Char.isDigit then
      some ⟨sgn.1 * natVal sgn.2, 0⟩
    else none
  | some (a, b) =>
    if ('.' ∉ b) ∧ a.all Char.isDigit ∧ b.all Char.isDigit ∧ (a ≠ [] ∨ b ≠ []) then
      some ⟨sgn.1 * (natVal a * 10 ^ b.length + natVal b), b.length⟩
    else none

/-- Python `float(value)` on a modelled attribute value (`TypeError` /
`ValueError` both give `none`). -/
def floatOfValue : Value → Option Dec
  | .null => none
  | .int n => some ⟨n, 0⟩
  | .str s => parseFloat s

/-- `layer.fields().indexOf(name)`: index of the named field, `none`
standing for the Python -1. -/
def fieldIndex (fields : List Str) (name : Str) : Option Nat :=
  fields.findIdx? (fun f => f == name)

/-- A feature's attribute row, aligned with the layer's field list;
`feature.attribute(idx)` (always called with a valid index) on a missing
index is modelled as null. -/
def attrAt (attrs : List Value) (i : Nat) : Value := attrs.getD i Value.null

/-- One filter rule's data (the Python dict `{'type': ..., 'value': ...}`);
every rule the code constructs carries both keys, so the `.get` defaults
(`'Contains'`, `''`) never fire and the fields are total here. -/
structure FilterData where
  kind : Str
  value : Str
deriving DecidableEq

def kContains : Str := ("Contains").toList

def kEquals : Str := ("Equals").toList

def kStarts : Str := ("Starts with").toList

def kEnds : Str := ("Ends with").toList

def kGreater : Str := ("Greater than").toList

def kLess : Str := ("Less than").toList

/-- The six comparison kinds recognized by the evaluator. -/
def knownKinds : List Str := [kContains, kEquals, kStarts, kEnds, kGreater, kLess]

/-- Evaluation of one filter rule inside the loop of
`feature_matches_filters` (lines 545-589): `none` models the two `continue`
cases (blank rule text, unresolvable field); `some b` is the computed
`matches` flag, which is `false` for every unrecognized kind. -/
def ruleEval (fields : List Str) (attrs : List Value) (field_name : Str)
    (fd : FilterData) : Option Bool :=
  let filter_value := pyStrip fd.value
  if filter_value = [] then none
  else
    match fieldIndex fields field_name with
    | none => none
    | some field_idx =>
      let feature_value := attrAt attrs field_idx
      let feature_value_str :=
        match feature_value with
        | .null => []
        | v => pyLower (pyStr v)
      let filter_value_lower := pyLower filter_value
      if fd.kind = kContains then
        some (containsSub filter_value_lower feature_value_str)
      else if fd.kind = kEquals then
        some (feature_value_str == filter_value_lower)
      else if fd.kind = kStarts then
        some (filter_value_lower.isPrefixOf feature_value_str)
      else if fd.kind = kEnds then
        some (filter_value_lower.isSuffixOf feature_value_str)
      else if fd.kind = kGreater then
        some (match (match feature_value with
                     | .null => some (⟨0, 0⟩ : Dec)
                     | v => floatOfValue v),
                    parseFloat filter_value with
              | some a, some b => Dec.blt b a
              | _, _ => false)
      else if fd.kind = kLess then
        some (match (match feature_value with
                     | .null => some (⟨0, 0⟩ : Dec)
                     | v => floatOfValue v),
                    parseFloat filter_value with
              | some a, some b => Dec.blt a b
              | _, _ => false)
      else some false

/-- The rule loop of `feature_matches_filters` (lines 540-596): every rule
must match; the first failing rule rejects the feature immediately. -/
def feature_matches_filters (fields : List Str) (attrs : List Value) :
    List (Str × FilterData) → Bool
  | [] => true
  | (field_name, fd) :: rest =>
    match ruleEval fields attrs field_name fd with
    | some false => false
    | _ => feature_matches_filters fields attrs rest

def fvtName : Str := ("_fvt_vis").toList

/-- Python `value != 0` for modelled values: only the integer 0 equals 0. -/
def pyEqZero : Value → Bool
  | .int n => n == 0
  | _ => false

/-- The `is_visible` computation of `on_layer_selected` (lines 472-476):
with the reserved field present,
`vis_value is not None and vis_value != 0`; with the field absent, true. -/
def is_visible (vis_field_idx : Option Nat) (attrs : List Value) : Bool :=
  match vis_field_idx with
  | some idx =>
    let vis_value := attrAt attrs idx
    decide (vis_value ≠ Value.null) && !(pyEqZero vis_value)
  | none => true

/-- The feature-collection loop of `on_layer_selected` (lines 460-486):
iterate the layer's features, skip those failing the active filters,
annotate the rest with their current visibility, and break once a positive
feature limit is reached (the length test runs after appending). -/
def populateLoop (feature_limit : Int) (fields : List Str)
    (filters : List (Str × FilterData)) (vis_field_idx : Option Nat) :
    List (Nat × List Value) → List (Nat × List Value × Bool) →
    List (Nat × List Value × Bool)
  | [], acc => acc
  | (fid, attrs) :: rest, acc =>
    if feature_matches_filters fields attrs filters then
      let acc' := acc ++ [(fid, attrs, is_visible vis_field_idx attrs)]
      if 0 < feature_limit ∧ feature_limit ≤ (acc'.length : Int) then acc'
      else populateLoop feature_limit fields filters vis_field_idx rest acc'
    else populateLoop feature_limit fields filters vis_field_idx rest acc

/-- Active filters (line 458): only rules whose field is among the selected
attributes apply. -/
def activeFilters (layer_filters : List (Str × FilterData))
    (selected_attrs : List Str) : List (Str × FilterData) :=
  layer_filters.filter (fun p => selected_attrs.contains p.1)

/-- The feature list built by one population pass of `on_layer_selected`. -/
def on_layer_selected_features (feature_limit : Int) (fields : List Str)
    (selected_attrs : List Str) (layer_filters : List (Str × FilterData))
    (feats : List (Nat × List Value)) : List (Nat × List Value × Bool) :=
  populateLoop feature_limit fields (activeFilters layer_filters selected_attrs)
    (fieldIndex fields fvtName) feats []

/-- Host state touched by `update_layer_visibility`: the layer's fields,
its subset (row filter) string, and counters of repaint / canvas-refresh
requests. -/
structure LayerState where
  fields : List Str
  subset : Str
  repaints : Nat
  canvasRefreshes : Nat
deriving DecidableEq

/-- The subset string set on line 818: `'"_fvt_vis" = 1'`. -/
def visSubsetExpr : Str := ("\"_fvt_vis\" = 1").toList

/-- `update_layer_visibility` (lines 805-826): when the reserved field is
missing, clear the filter and return immediately; otherwise set the filter
to `'"_fvt_vis" = 1'`, trigger a repaint and refresh the canvas. -/
def update_layer_visibility (L : LayerState) : LayerState :=
  match fieldIndex L.fields fvtName with
  | none => { L with subset := [] }
  | some _ =>
    { L with subset := visSubsetExpr, repaints := L.repaints + 1,
             canvasRefreshes := L.canvasRefreshes + 1 }

/-- Modelled from the spec: host evaluation of the restricted row filter
expressions (spec section 6 allows only the forms `"<field>" = 1` and the
empty string).  The empty filter keeps every record; `'"_fvt_vis" = 1'`
keeps exactly the records whose reserved value is the integer 1.  The host
evaluator itself is not part of this repository. -/
def rowFilterKeeps (expr : Str) (vis_value : Value) : Bool :=
  if expr = [] then true
  else if expr = visSubsetExpr then vis_value == Value.int 1
  else false

/-- Host state touched by `ensure_visibility_field`: field list, features
(id and attribute row), the edit-mode flag, and whether the host accepts
the schema commit. -/
structure VLayer where
  fields : List Str
  feats : List (Nat × List Value)
  editable : Bool
  commitOk : Bool
deriving DecidableEq

/-- `ensure_visibility_field` (lines 742-780): success immediately if the
reserved field exists; failure if the layer is in edit mode or the host
rejects the schema commit (state unchanged); otherwise append the integer
field and initialize every feature's value to 1.  Returns the success flag
together with the resulting layer. -/
def ensure_visibility_field (L : VLayer) : Bool × VLayer :=
  match fieldIndex L.fields fvtName with
  | some _ => (true, L)
  | none =>
    if L.editable then (false, L)
    else if ¬ L.commitOk then (false, L)
    else
      let newIdx := L.fields.length
      let L1 : VLayer := { L with
        fields := L.fields ++ [fvtName]
        feats := L.feats.map (fun f => (f.1, f.2 ++ [Value.null])) }
      let L2 : VLayer := { L1 with
        feats := L1.feats.map (fun f => (f.1, f.2.set newIdx (Value.int 1))) }
      (true, L2)

/-- Example data: a rule mapping with embedded separators in every
component. -/
def exampleRules : List FilterTriple :=
  [(("a:b").toList, ("Contains").toList, ("x|y").toList),
   (("c").toList, ("Equals").toList, (":z|").toList)]

/-! ## Theorems -/

theorem replFuel_mono (old new : Str) :
    ∀ (n : Nat) (s : Str) (m : Nat), s.length ≤ n → s.length ≤ m →
      replFuel old new n s = replFuel old new m s := by
  intro n
  induction n with
  | zero =>
    intro s m hn _
    have hs : s = [] := List.length_eq_zero.mp (Nat.le_zero.mp hn)
    subst hs
    cases m <;> rfl
  | succ n ih =>
    intro s m hn hm
    cases s with
    | nil => cases m <;> rfl
    | cons c rest =>
      cases m with
      | zero => simp at hm
      | succ m' =>
        simp only [replFuel]
        by_cases h : old ≠ [] ∧ old.isPrefixOf (c :: rest)
        · simp only [if_pos h]
          congr 1
          apply ih
          · calc (rest.drop (old.length - 1)).length ≤ rest.length := by
                  simp [List.length_drop]
               _ ≤ n := by simpa using hn
          · calc (rest.drop (old.length - 1)).length ≤ rest.length := by
                  simp [List.length_drop]
               _ ≤ m' := by simpa using hm
        · simp only [if_neg h]
          congr 1
          apply ih
          · simpa using hn
          · simpa using hm

theorem pyReplace_nil (old new : Str) : pyReplace old new [] = [] := rfl

theorem pyReplace_pos (old new : Str) (c : Char) (rest : Str)
    (h : old ≠ [] ∧ old.isPrefixOf (c :: rest)) :
    pyReplace old new (c :: rest) =
      new ++ pyReplace old new (rest.drop (old.length - 1)) := by
  show replFuel old new (rest.length + 1) (c :: rest) = _
  simp only [replFuel, if_pos h]
  congr 1
  apply replFuel_mono
  · simp [List.length_drop]
  · exact Nat.le_refl _

theorem pyReplace_neg (old new : Str) (c : Char) (rest : Str)
    (h : ¬ (old ≠ [] ∧ old.isPrefixOf (c :: rest))) :
    pyReplace old new (c :: rest) = c :: pyReplace old new rest := by
  show replFuel old new (rest.length + 1) (c :: rest) = _
  simp only [replFuel, if_neg h]
  rfl

/-- Replacing a single-character pattern expands each matching character
independently. -/
theorem pyReplace_single (a : Char) (new : Str) (s : Str) :
    pyReplace [a] new s = s.flatMap (fun c => if c = a then new else [c]) := by
  induction s with
  | nil => rfl
  | cons c rest ih =>
    by_cases hca : a = c
    · subst hca
      rw [pyReplace_pos]
      · simp [ih]
      · constructor
        · simp
        · simp [List.isPrefixOf]
    · rw [pyReplace_neg]
      · simp only [List.flatMap_cons]
        have hne : ¬ c = a := fun hc => hca hc.symm
        rw [if_neg hne]
        simp [ih]
      · intro hand
        have hpre := hand.2
        simp [List.isPrefixOf] at hpre
        exact hca hpre

theorem splitFirst_not_mem (sep : Char) (s : Str) (h : sep ∉ s) :
    splitFirst sep s = none := by
  induction s with
  | nil => rfl
  | cons c rest ih =>
    simp only [List.mem_cons, not_or] at h
    have hcs : ¬ c = sep := fun hc => h.1 hc.symm
    simp only [splitFirst, if_neg hcs, ih h.2, Option.map_none']

theorem splitFirst_append (sep : Char) (a r : Str) (h : sep ∉ a) :
    splitFirst sep (a ++ sep :: r) = some (a, r) := by
  induction a with
  | nil => simp [splitFirst]
  | cons c rest ih =>
    simp only [List.mem_cons, not_or] at h
    have hcs : ¬ c = sep := fun hc => h.1 hc.symm
    simp only [List.cons_append, splitFirst, if_neg hcs, List.append_eq,
      ih h.2, Option.map_some']

theorem pySplitAll_not_mem (sep : Char) (s : Str) (h : sep ∉ s) :
    pySplitAll sep s = [s] := by
  induction s with
  | nil => rfl
  | cons c rest ih =>
    simp only [List.mem_cons, not_or] at h
    have hcs : ¬ c = sep := fun hc => h.1 hc.symm
    simp only [pySplitAll, if_neg hcs, ih h.2]

theorem pySplitAll_append (sep : Char) (a r : Str) (h : sep ∉ a) :
    pySplitAll sep (a ++ sep :: r) = a :: pySplitAll sep r := by
  induction a with
  | nil => simp [pySplitAll]
  | cons c rest ih =>
    simp only [List.mem_cons, not_or] at h
    have hcs : ¬ c = sep := fun hc => h.1 hc.symm
    simp only [List.cons_append, pySplitAll, if_neg hcs, List.append_eq,
      ih h.2]

/-- Splitting a join recovers the separator-free parts. -/
theorem pySplitAll_joinSep (sep : Char) (parts : List Str)
    (hne : parts ≠ []) (h : ∀ p ∈ parts, sep ∉ p) :
    pySplitAll sep (joinSep sep parts) = parts := by
  induction parts with
  | nil => exact absurd rfl hne
  | cons p rest ih =>
    cases rest with
    | nil =>
      simp only [joinSep]
      exact pySplitAll_not_mem sep p (h p (by simp))
    | cons q rest' =>
      simp only [joinSep]
      rw [pySplitAll_append sep p _ (h p (by simp))]
      congr 1
      exact ih (by simp) (fun x hx => h x (List.mem_cons_of_mem _ hx))

theorem escapeComp_eq_flatMap (s : Str) : escapeComp s = s.flatMap escFun := by
  unfold escapeComp
  rw [show sCOLON = [(':' : Char)] from rfl, show sPIPE = [('|' : Char)] from rfl,
    pyReplace_single, pyReplace_single, List.flatMap_assoc]
  congr 1
  funext c
  by_cases h1 : c = ':'
  · subst h1; decide
  · by_cases h2 : c = '|'
    · subst h2; decide
    · simp [escFun, h1, h2]

theorem escFun_shape (c : Char) : escFun c = [c] ∨ ∃ r, escFun c = '_' :: r := by
  by_cases h1 : c = ':'
  · subst h1; right; exact ⟨['C', 'O', 'L', 'O', 'N', '_'], by decide⟩
  · by_cases h2 : c = '|'
    · subst h2; right; exact ⟨['P', 'I', 'P', 'E', '_'], by decide⟩
    · left; simp [escFun, h1, h2]

theorem midFun_shape (c : Char) : midFun c = [c] ∨ ∃ r, midFun c = '_' :: r := by
  by_cases h2 : c = '|'
  · subst h2; right; exact ⟨['P', 'I', 'P', 'E', '_'], by decide⟩
  · left; simp [midFun, h2]

/-- A pattern made of characters that never start an expansion block lifts
through per-character expansion: if it is a prefix of the expanded string it
was already a prefix of the original. -/
theorem prefixLift (f : Char → Str)
    (hf : ∀ c, f c = [c] ∨ ∃ r, f c = '_' :: r) :
    ∀ (p : Str), (∀ c ∈ p, c ≠ '_') →
      ∀ t : Str, p.isPrefixOf (t.flatMap f) = true → p.isPrefixOf t = true := by
  intro p
  induction p with
  | nil => intro _ t _; simp
  | cons a p' ih =>
    intro hp t hpre
    cases t with
    | nil => simp at hpre
    | cons c t' =>
      rw [List.flatMap_cons] at hpre
      rcases hf c with h | ⟨r, h⟩
      · rw [h, List.singleton_append, List.isPrefixOf_cons₂] at hpre
        simp only [Bool.and_eq_true, beq_iff_eq] at hpre
        rw [List.isPrefixOf_cons₂]
        simp only [Bool.and_eq_true, beq_iff_eq]
        exact ⟨hpre.1, ih (fun x hx => hp x (List.mem_cons_of_mem _ hx)) t' hpre.2⟩
      · rw [h, List.cons_append, List.isPrefixOf_cons₂] at hpre
        simp only [Bool.and_eq_true, beq_iff_eq] at hpre
        exact absurd hpre.1 (hp a (by simp))

theorem isPrefixOf_weaken (p q : Str) :
    ∀ v : Str, (p ++ q).isPrefixOf v = true → p.isPrefixOf v = true := by
  induction p with
  | nil => intro v _; simp
  | cons a p' ih =>
    intro v h
    cases v with
    | nil => simp at h
    | cons b v' =>
      rw [List.cons_append, List.isPrefixOf_cons₂] at h
      rw [List.isPrefixOf_cons₂]
      simp only [Bool.and_eq_true] at h ⊢
      exact ⟨h.1, ih v' h.2⟩

theorem containsSub_of_ipf (p s : Str) (h : p.isPrefixOf s = true) :
    containsSub p s = true := by
  cases s with
  | nil =>
    cases p with
    | nil => rfl
    | cons a as => simp at h
  | cons c rest => simp [containsSub, h]

theorem containsSub_tail (p : Str) (c : Char) (rest : Str)
    (h : containsSub p (c :: rest) = false) : containsSub p rest = false := by
  simp only [containsSub, Bool.or_eq_false_iff] at h
  exact h.2

theorem pyReplace_skip (old new : Str) (c : Char) (v : Str)
    (h : old.isPrefixOf (c :: v) = false) :
    pyReplace old new (c :: v) = c :: pyReplace old new v := by
  apply pyReplace_neg
  intro hand
  rw [h] at hand
  exact Bool.noConfusion hand.2

theorem isPrefixOf_append_self (p v : Str) : p.isPrefixOf (p ++ v) = true := by
  induction p with
  | nil => simp
  | cons a p' ih => simp [List.isPrefixOf, ih]

/-- The colon token never matches at a stray underscore inside an escaped
`COLON`/`PIPE`-free string. -/
theorem tCOLON_not_ipf (rest : Str) (hrest : containsSub wCOLON rest = false) :
    tCOLON.isPrefixOf ('_' :: rest.flatMap escFun) = false := by
  rw [show tCOLON = '_' :: (wCOLON ++ ['_']) from rfl, List.isPrefixOf_cons₂]
  cases hq : (wCOLON ++ ['_']).isPrefixOf (rest.flatMap escFun) with
  | false => simp
  | true =>
    exfalso
    have h1 : wCOLON.isPrefixOf (rest.flatMap escFun) = true :=
      isPrefixOf_weaken _ _ _ hq
    have h2 : wCOLON.isPrefixOf rest = true :=
      prefixLift escFun escFun_shape wCOLON (by decide) rest h1
    have h3 := containsSub_of_ipf _ _ h2
    rw [hrest] at h3
    exact Bool.noConfusion h3

/-- The pipe token never matches at a stray underscore inside a
`PIPE`-free intermediate string. -/
theorem tPIPE_not_ipf (rest : Str) (hrest : containsSub wPIPE rest = false) :
    tPIPE.isPrefixOf ('_' :: rest.flatMap midFun) = false := by
  rw [show tPIPE = '_' :: (wPIPE ++ ['_']) from rfl, List.isPrefixOf_cons₂]
  cases hq : (wPIPE ++ ['_']).isPrefixOf (rest.flatMap midFun) with
  | false => simp
  | true =>
    exfalso
    have h1 : wPIPE.isPrefixOf (rest.flatMap midFun) = true :=
      isPrefixOf_weaken _ _ _ hq
    have h2 : wPIPE.isPrefixOf rest = true :=
      prefixLift midFun midFun_shape wPIPE (by decide) rest h1
    have h3 := containsSub_of_ipf _ _ h2
    rw [hrest] at h3
    exact Bool.noConfusion h3

/-- Undoing the colon escape on an escaped `COLON`-free string restores the
colons and leaves the pipe tokens alone. -/
theorem colon_unescape (s : Str) (h : containsSub wCOLON s = false) :
    pyReplace tCOLON sCOLON (s.flatMap escFun) = s.flatMap midFun := by
  induction s with
  | nil => rfl
  | cons c rest ih =>
    have hrest : containsSub wCOLON rest = false := containsSub_tail _ _ _ h
    have ihr := ih hrest
    by_cases hc : c = ':'
    · subst hc
      rw [List.flatMap_cons, show escFun ':' = tCOLON from by decide]
      rw [show tCOLON ++ rest.flatMap escFun =
        '_' :: (['C', 'O', 'L', 'O', 'N', '_'] ++ rest.flatMap escFun) from rfl]
      rw [pyReplace_pos _ _ _ _
        ⟨by decide, by
          rw [show ('_' :: (['C', 'O', 'L', 'O', 'N', '_'] ++ rest.flatMap escFun)) =
            tCOLON ++ rest.flatMap escFun from rfl]
          exact isPrefixOf_append_self _ _⟩]
      rw [show tCOLON.length - 1 = (['C', 'O', 'L', 'O', 'N', '_'] : Str).length from rfl]
      rw [List.drop_left, ihr]
      rfl
    · by_cases hp : c = '|'
      · subst hp
        rw [List.flatMap_cons, show escFun '|' = tPIPE from by decide]
        rw [List.flatMap_cons, show midFun '|' = tPIPE from by decide]
        rw [show tPIPE ++ rest.flatMap escFun =
          '_' :: 'P' :: 'I' :: 'P' :: 'E' :: '_' :: rest.flatMap escFun from rfl]
        rw [pyReplace_skip _ _ _ _ (by simp [tCOLON, List.isPrefixOf])]
        rw [pyReplace_skip _ _ _ _ (by simp [tCOLON, List.isPrefixOf])]
        rw [pyReplace_skip _ _ _ _ (by simp [tCOLON, List.isPrefixOf])]
        rw [pyReplace_skip _ _ _ _ (by simp [tCOLON, List.isPrefixOf])]
        rw [pyReplace_skip _ _ _ _ (by simp [tCOLON, List.isPrefixOf])]
        rw [pyReplace_skip _ _ _ _ (tCOLON_not_ipf rest hrest)]
        rw [ihr]
        rfl
      · rw [List.flatMap_cons, show escFun c = [c] from by simp [escFun, hc, hp],
          List.singleton_append]
        by_cases hu : c = '_'
        · subst hu
          rw [pyReplace_skip _ _ _ _ (tCOLON_not_ipf rest hrest), ihr]
          rfl
        · have hbc : (('_' : Char) == c) = false :=
            beq_eq_false_iff_ne.mpr (fun hh => hu hh.symm)
          have e : tCOLON.isPrefixOf (c :: rest.flatMap escFun) = false := by
            rw [show tCOLON = '_' :: ['C', 'O', 'L', 'O', 'N', '_'] from rfl,
              List.isPrefixOf_cons₂, hbc, Bool.false_and]
          rw [pyReplace_skip _ _ _ _ e, ihr, List.flatMap_cons,
            show midFun c = [c] from by simp [midFun, hp], List.singleton_append]

/-- Undoing the pipe escape on a pipe-escaped `PIPE`-free string restores the
original string. -/
theorem pipe_unescape (s : Str) (h : containsSub wPIPE s = false) :
    pyReplace tPIPE sPIPE (s.flatMap midFun) = s := by
  induction s with
  | nil => rfl
  | cons c rest ih =>
    have hrest : containsSub wPIPE rest = false := containsSub_tail _ _ _ h
    have ihr := ih hrest
    by_cases hp : c = '|'
    · subst hp
      rw [List.flatMap_cons, show midFun '|' = tPIPE from by decide]
      rw [show tPIPE ++ rest.flatMap midFun =
        '_' :: (['P', 'I', 'P', 'E', '_'] ++ rest.flatMap midFun) from rfl]
      rw [pyReplace_pos _ _ _ _
        ⟨by decide, by
          rw [show ('_' :: (['P', 'I', 'P', 'E', '_'] ++ rest.flatMap midFun)) =
            tPIPE ++ rest.flatMap midFun from rfl]
          exact isPrefixOf_append_self _ _⟩]
      rw [show tPIPE.length - 1 = (['P', 'I', 'P', 'E', '_'] : Str).length from rfl]
      rw [List.drop_left, ihr]
      rfl
    · rw [List.flatMap_cons, show midFun c = [c] from by simp [midFun, hp],
        List.singleton_append]
      by_cases hu : c = '_'
      · subst hu
        rw [pyReplace_skip _ _ _ _ (tPIPE_not_ipf rest hrest), ihr]
      · have hbc : (('_' : Char) == c) = false :=
          beq_eq_false_iff_ne.mpr (fun hh => hu hh.symm)
        have e : tPIPE.isPrefixOf (c :: rest.flatMap midFun) = false := by
          rw [show tPIPE = '_' :: ['P', 'I', 'P', 'E', '_'] from rfl,
            List.isPrefixOf_cons₂, hbc, Bool.false_and]
        rw [pyReplace_skip _ _ _ _ e, ihr]

/-- Round trip of a single settings component through escaping and
unescaping, for components containing neither `COLON` nor `PIPE`. -/
theorem unescape_escape (s : Str) (h : compSafe s = true) :
    unescapeComp (escapeComp s) = s := by
  simp only [compSafe, Bool.and_eq_true, Bool.not_eq_true'] at h
  unfold unescapeComp
  rw [escapeComp_eq_flatMap, colon_unescape s h.1, pipe_unescape s h.2]

theorem escFun_no_sep (x c : Char) (hx : c ∈ escFun x) : c ≠ ':' ∧ c ≠ '|' := by
  by_cases h1 : x = ':'
  · subst h1
    rw [show escFun ':' = tCOLON from by decide] at hx
    exact (by decide : ∀ c ∈ tCOLON, c ≠ ':' ∧ c ≠ '|') c hx
  · by_cases h2 : x = '|'
    · subst h2
      rw [show escFun '|' = tPIPE from by decide] at hx
      exact (by decide : ∀ c ∈ tPIPE, c ≠ ':' ∧ c ≠ '|') c hx
    · rw [show escFun x = [x] from by simp [escFun, h1, h2]] at hx
      rw [List.mem_singleton] at hx
      subst hx
      exact ⟨h1, h2⟩

theorem colon_not_mem_escape (x : Str) : ':' ∉ escapeComp x := by
  intro hm
  rw [escapeComp_eq_flatMap, List.mem_flatMap] at hm
  obtain ⟨a, _, ha⟩ := hm
  exact (escFun_no_sep a ':' ha).1 rfl

theorem pipe_not_mem_escape (x : Str) : '|' ∉ escapeComp x := by
  intro hm
  rw [escapeComp_eq_flatMap, List.mem_flatMap] at hm
  obtain ⟨a, _, ha⟩ := hm
  exact (escFun_no_sep a '|' ha).2 rfl

theorem pipe_not_mem_partOf (r : FilterTriple) : '|' ∉ partOf r := by
  intro hm
  unfold partOf at hm
  rcases List.mem_append.mp hm with h | h
  · exact pipe_not_mem_escape _ h
  · rcases List.mem_cons.mp h with h | h
    · exact absurd h (by decide)
    · rcases List.mem_append.mp h with h | h
      · exact pipe_not_mem_escape _ h
      · rcases List.mem_cons.mp h with h | h
        · exact absurd h (by decide)
        · exact pipe_not_mem_escape _ h

theorem splitPart (ef ek ev : Str) (hf : ':' ∉ ef) (hk : ':' ∉ ek) :
    pySplitN ':' 2 (ef ++ ':' :: (ek ++ ':' :: ev)) = [ef, ek, ev] := by
  simp only [pySplitN]
  rw [splitFirst_append ':' ef _ hf]
  simp only [pySplitN]
  rw [splitFirst_append ':' ek _ hk]

/-- Key step of the parse-of-serialize round trip: folding the parse step
over the serialized parts appends the original rules to the accumulator,
provided all components are safe and the field names are fresh and
distinct. -/
theorem foldl_parse (rules : List FilterTriple) :
    ∀ acc : List FilterTriple,
      (∀ r ∈ rules, compSafe r.1 = true ∧ compSafe r.2.1 = true ∧
          compSafe r.2.2 = true) →
      (rules.map (fun r => r.1)).Nodup →
      (∀ r ∈ rules, acc.any (fun p => p.1 == r.1) = false) →
      (rules.map partOf).foldl
        (fun acc part =>
          if ':' ∈ part then
            match pySplitN ':' 2 part with
            | [a, b, c] =>
                dictInsert acc (unescapeComp a) (unescapeComp b, unescapeComp c)
            | _ => acc
          else acc) acc = acc ++ rules := by
  induction rules with
  | nil => intro acc _ _ _; simp
  | cons r rest ih =>
    intro acc hsafe hnd hdisj
    have hr := hsafe r (by simp)
    simp only [List.map_cons, List.foldl_cons]
    have hmem : ':' ∈ partOf r := by
      simp [partOf]
    rw [if_pos hmem]
    have hsplit : pySplitN ':' 2 (partOf r) = [escapeComp r.1, escapeComp r.2.1, escapeComp r.2.2] := by
      have := splitPart (escapeComp r.1) (escapeComp r.2.1) (escapeComp r.2.2)
        (colon_not_mem_escape _) (colon_not_mem_escape _)
      simpa [partOf] using this
    rw [hsplit]
    simp only
    rw [unescape_escape _ hr.1, unescape_escape _ hr.2.1, unescape_escape _ hr.2.2]
    rw [show dictInsert acc r.1 (r.2.1, r.2.2) = acc ++ [r] from by
      rw [dictInsert, if_neg (by rw [hdisj r (by simp)]; exact Bool.noConfusion)]]
    rw [List.map_cons, List.nodup_cons] at hnd
    have hres := ih (acc ++ [r])
      (fun x hx => hsafe x (List.mem_cons_of_mem _ hx))
      hnd.2
      (fun x hx => by
        rw [List.any_append]
        rw [hdisj x (List.mem_cons_of_mem _ hx)]
        simp only [Bool.false_or, List.any_cons, List.any_nil, Bool.or_false]
        rw [beq_eq_false_iff_ne]
        intro he
        exact hnd.1 (by rw [he]; exact List.mem_map_of_mem _ hx))
    rw [hres, List.append_assoc]
    rfl

/-- Parsing the serialization of a rule mapping with distinct field names
and safe components reproduces the mapping exactly. -/
theorem parseFilters_serializeFilters (rules : List FilterTriple)
    (hnd : (rules.map (fun r => r.1)).Nodup)
    (hsafe : ∀ r ∈ rules, compSafe r.1 = true ∧ compSafe r.2.1 = true ∧
        compSafe r.2.2 = true) :
    parseFilters (serializeFilters rules) = rules := by
  cases rules with
  | nil => rfl
  | cons r rest =>
    unfold parseFilters serializeFilters
    rw [pySplitAll_joinSep '|' _ (by simp)
      (fun p hp => by
        rw [List.mem_map] at hp
        obtain ⟨x, _, hx⟩ := hp
        rw [← hx]
        exact pipe_not_mem_partOf x)]
    exact foldl_parse (r :: rest) [] hsafe hnd (fun x _ => rfl)

theorem Dec.blt_iff (x y : Dec) : Dec.blt x y = true ↔ x.toRat < y.toRat := by
  unfold Dec.blt Dec.toRat
  rw [decide_eq_true_eq]
  rw [div_lt_div_iff₀ (by positivity) (by positivity)]
  constructor
  · intro h
    exact_mod_cast h
  · intro h
    exact_mod_cast h

theorem Dec.blt_eq_decide (x y : Dec) :
    Dec.blt x y = decide (x.toRat < y.toRat) := by
  cases h : Dec.blt x y with
  | true => exact (decide_eq_true ((Dec.blt_iff x y).mp h)).symm
  | false =>
    symm
    rw [decide_eq_false_iff_not]
    intro hlt
    rw [(Dec.blt_iff x y).mpr hlt] at h
    exact Bool.noConfusion h

/-- A singleton rule set matches unless its rule evaluates to
`some false`. -/
theorem fmf_singleton (fields : List Str) (attrs : List Value) (fn : Str)
    (fd : FilterData) :
    feature_matches_filters fields attrs [(fn, fd)] =
      (ruleEval fields attrs fn fd).getD true := by
  simp only [feature_matches_filters]
  cases h : ruleEval fields attrs fn fd with
  | none => rfl
  | some b => cases b <;> rfl

/-- A rule set containing a rule that evaluates to `some false` rejects the
feature. -/
theorem fmf_false_of_mem (fields : List Str) (attrs : List Value) :
    ∀ rules : List (Str × FilterData), ∀ r ∈ rules,
      ruleEval fields attrs r.1 r.2 = some false →
      feature_matches_filters fields attrs rules = false := by
  intro rules
  induction rules with
  | nil => intro r hr; cases hr
  | cons p rest ih =>
    obtain ⟨fn, fd⟩ := p
    intro r hr he
    rcases List.mem_cons.mp hr with h | h
    · subst h
      simp only [feature_matches_filters]
      rw [he]
    · simp only [feature_matches_filters]
      cases hre : ruleEval fields attrs fn fd with
      | none => exact ih r h he
      | some b =>
        cases b with
        | false => rfl
        | true => exact ih r h he

/-- The rule loop is the conjunction of all individual rule outcomes. -/
theorem fmf_eq_all (fields : List Str) (attrs : List Value) :
    ∀ rules : List (Str × FilterData),
      feature_matches_filters fields attrs rules =
        rules.all (fun r => !(ruleEval fields attrs r.1 r.2 == some false)) := by
  intro rules
  induction rules with
  | nil => rfl
  | cons p rest ih =>
    obtain ⟨fn, fd⟩ := p
    simp only [feature_matches_filters, List.all_cons]
    cases hre : ruleEval fields attrs fn fd with
    | none => simp [ih]
    | some b => cases b <;> simp [ih]

/-- Computation of a `Greater than` rule: both sides are parsed, a null
feature value becomes 0, and a failed parse on either side yields a
non-match. -/
theorem ruleEval_greater (fields : List Str) (attrs : List Value) (fn : Str)
    (i : Nat) (fd : FilterData)
    (hidx : fieldIndex fields fn = some i)
    (hg : fd.kind = kGreater)
    (hval : pyStrip fd.value ≠ []) :
    ruleEval fields attrs fn fd =
      some (match (match attrAt attrs i with
                   | .null => some (⟨0, 0⟩ : Dec)
                   | v => floatOfValue v), parseFloat (pyStrip fd.value) with
            | some a, some b => Dec.blt b a
            | _, _ => false) := by
  unfold ruleEval
  rw [if_neg hval, hidx]
  have c1 : ¬ (kGreater = kContains) := by decide
  have c2 : ¬ (kGreater = kEquals) := by decide
  have c3 : ¬ (kGreater = kStarts) := by decide
  have c4 : ¬ (kGreater = kEnds) := by decide
  simp only [hg, if_neg c1, if_neg c2, if_neg c3, if_neg c4, if_pos rfl,
    eq_self_iff_true, if_true]

/-- Computation of a `Less than` rule, symmetric to `ruleEval_greater`. -/
theorem ruleEval_less (fields : List Str) (attrs : List Value) (fn : Str)
    (i : Nat) (fd : FilterData)
    (hidx : fieldIndex fields fn = some i)
    (hg : fd.kind = kLess)
    (hval : pyStrip fd.value ≠ []) :
    ruleEval fields attrs fn fd =
      some (match (match attrAt attrs i with
                   | .null => some (⟨0, 0⟩ : Dec)
                   | v => floatOfValue v), parseFloat (pyStrip fd.value) with
            | some a, some b => Dec.blt a b
            | _, _ => false) := by
  unfold ruleEval
  rw [if_neg hval, hidx]
  have c1 : ¬ (kLess = kContains) := by decide
  have c2 : ¬ (kLess = kEquals) := by decide
  have c3 : ¬ (kLess = kStarts) := by decide
  have c4 : ¬ (kLess = kEnds) := by decide
  have c5 : ¬ (kLess = kGreater) := by decide
  simp only [hg, if_neg c1, if_neg c2, if_neg c3, if_neg c4, if_neg c5,
    if_pos rfl, eq_self_iff_true, if_true]

/-- A rule with an unrecognized kind, non-blank text and a resolvable field
evaluates to `some false`. -/
theorem ruleEval_unknown (fields : List Str) (attrs : List Value) (fn : Str)
    (fd : FilterData)
    (hkind : fd.kind ∉ knownKinds)
    (hval : pyStrip fd.value ≠ [])
    (hidx : fieldIndex fields fn ≠ none) :
    ruleEval fields attrs fn fd = some false := by
  unfold ruleEval
  rw [if_neg hval]
  cases hfi : fieldIndex fields fn with
  | none => exact absurd hfi hidx
  | some i =>
    have c1 : ¬ (fd.kind = kContains) := fun h => hkind (by rw [h]; simp [knownKinds])
    have c2 : ¬ (fd.kind = kEquals) := fun h => hkind (by rw [h]; simp [knownKinds])
    have c3 : ¬ (fd.kind = kStarts) := fun h => hkind (by rw [h]; simp [knownKinds])
    have c4 : ¬ (fd.kind = kEnds) := fun h => hkind (by rw [h]; simp [knownKinds])
    have c5 : ¬ (fd.kind = kGreater) := fun h => hkind (by rw [h]; simp [knownKinds])
    have c6 : ¬ (fd.kind = kLess) := fun h => hkind (by rw [h]; simp [knownKinds])
    simp only [if_neg c1, if_neg c2, if_neg c3, if_neg c4, if_neg c5, if_neg c6]

/-- With a non-positive stored limit the population loop keeps every
filter-passing feature. -/
theorem populateLoop_nolimit (lim : Int) (hlim : lim ≤ 0) (fields : List Str)
    (filters : List (Str × FilterData)) (vidx : Option Nat) :
    ∀ (feats : List (Nat × List Value)) (acc : List (Nat × List Value × Bool)),
      populateLoop lim fields filters vidx feats acc =
        acc ++ (feats.filter (fun p => feature_matches_filters fields p.2 filters)).map
          (fun p => (p.1, p.2, is_visible vidx p.2)) := by
  intro feats
  induction feats with
  | nil => intro acc; simp [populateLoop]
  | cons f rest ih =>
    obtain ⟨fid, attrs⟩ := f
    intro acc
    simp only [populateLoop]
    by_cases hm : feature_matches_filters fields attrs filters = true
    · rw [if_pos hm]
      have hc : ¬ (0 < lim ∧
          lim ≤ (((acc ++ [(fid, attrs, is_visible vidx attrs)]).length : Nat) : Int)) := by
        intro hand
        obtain ⟨h1, _⟩ := hand
        omega
      rw [if_neg hc, ih]
      simp [List.filter_cons, hm]
    · rw [if_neg hm, ih]
      simp [List.filter_cons, hm]

/-- With a positive stored limit the population loop appends exactly the
next `lim - acc.length` filter-passing features. -/
theorem populateLoop_limit (lim : Int) (hlim : 0 < lim) (fields : List Str)
    (filters : List (Str × FilterData)) (vidx : Option Nat) :
    ∀ (feats : List (Nat × List Value)) (acc : List (Nat × List Value × Bool)),
      (acc.length : Int) < lim →
      populateLoop lim fields filters vidx feats acc =
        acc ++ ((feats.filter (fun p => feature_matches_filters fields p.2 filters)).map
          (fun p => (p.1, p.2, is_visible vidx p.2))).take (lim.toNat - acc.length) := by
  intro feats
  induction feats with
  | nil => intro acc _; simp [populateLoop]
  | cons f rest ih =>
    obtain ⟨fid, attrs⟩ := f
    intro acc hacc
    simp only [populateLoop]
    by_cases hm : feature_matches_filters fields attrs filters = true
    · rw [if_pos hm]
      by_cases hstop : 0 < lim ∧
          lim ≤ (((acc ++ [(fid, attrs, is_visible vidx attrs)]).length : Nat) : Int)
      · rw [if_pos hstop]
        have hlen : lim.toNat - acc.length = 1 := by
          have h2 := hstop.2
          simp only [List.length_append, List.length_cons, List.length_nil] at h2
          omega
        rw [hlen]
        simp [List.filter_cons, hm]
      · rw [if_neg hstop]
        have hacc' : (((acc ++ [(fid, attrs, is_visible vidx attrs)]).length : Nat) : Int) < lim := by
          push_neg at hstop
          exact hstop hlim
        rw [ih _ hacc']
        have hk : lim.toNat - acc.length =
            (lim.toNat - (acc ++ [(fid, attrs, is_visible vidx attrs)]).length) + 1 := by
          simp only [List.length_append, List.length_cons, List.length_nil] at hacc' ⊢
          omega
        rw [hk]
        simp [List.filter_cons, hm, List.take_succ_cons]
    · rw [if_neg hm, ih _ hacc]
      simp [List.filter_cons, hm]

theorem fieldIndex_append_self (fs : List Str) :
    fieldIndex (fs ++ [fvtName]) fvtName ≠ none := by
  unfold fieldIndex
  intro h
  rw [List.findIdx?_eq_none_iff] at h
  have hx := h fvtName (by simp)
  simp at hx

/-- C1 (counterexample): with the reserved field present at index 0 and a
null stored value, the population pass records the feature as hidden
(`false`), not visible as the claim states. -/
theorem C1_counterexample :
    on_layer_selected_features 0 [fvtName] [] [] [(7, [Value.null])] =
      [(7, [Value.null], false)] ∧
    is_visible (some 0) [Value.null] ≠ true :=
  ⟨by decide, by decide⟩

/-- C1 (amended): when the reserved attribute exists but holds a null
value, the `is_visible` computation of the population pass yields `false`
(the feature reads as hidden); only when the reserved field is absent from
the layer is the feature treated as visible. -/
theorem C1_null_flag (attrs : List Value) (i : Nat)
    (h : attrAt attrs i = Value.null) :
    is_visible (some i) attrs = false ∧ is_visible none attrs = true := by
  constructor
  · simp [is_visible, h]
  · rfl

/-- Witness for C1_null_flag at a concrete feature. -/
theorem C1_witness :
    attrAt [Value.null] 0 = Value.null ∧
      (is_visible (some 0) [Value.null] = false ∧
        is_visible none [Value.null] = true) :=
  ⟨by decide, C1_null_flag [Value.null] 0 (by decide)⟩

/-- C2 (counterexample): a rule with the unrecognized kind `Bogus` and
non-empty text rejects the feature, while the empty rule set accepts it:
the rule is not inert. -/
theorem C2_counterexample :
    feature_matches_filters [("f").toList] [Value.str ("x").toList]
      [(("f").toList, ⟨("Bogus").toList, ("x").toList⟩)] = false ∧
    (("Bogus").toList ∉ knownKinds) ∧
    feature_matches_filters [("f").toList] [Value.str ("x").toList] [] = true :=
  ⟨by decide, by decide, rfl⟩

/-- C2 (amended): a rule whose kind is none of the six recognized
comparisons and whose stripped text is non-empty is treated as always
non-matching, not inert: any rule set containing it (with its field
resolvable on the layer) rejects every feature. -/
theorem C2_unknown_kind (fields : List Str) (attrs : List Value)
    (rules : List (Str × FilterData)) (fn : Str) (fd : FilterData)
    (hmem : (fn, fd) ∈ rules)
    (hkind : fd.kind ∉ knownKinds)
    (hval : pyStrip fd.value ≠ [])
    (hidx : fieldIndex fields fn ≠ none) :
    feature_matches_filters fields attrs rules = false :=
  fmf_false_of_mem fields attrs rules (fn, fd) hmem
    (ruleEval_unknown fields attrs fn fd hkind hval hidx)

/-- Witness for C2_unknown_kind at a concrete feature and rule. -/
theorem C2_witness :
    ((("f").toList, (⟨("Bogus").toList, ("x").toList⟩ : FilterData)) ∈
        ([((("f").toList), (⟨("Bogus").toList, ("x").toList⟩ : FilterData))] :
          List (Str × FilterData))) ∧
    ((⟨("Bogus").toList, ("x").toList⟩ : FilterData).kind ∉ knownKinds) ∧
    (pyStrip (⟨("Bogus").toList, ("x").toList⟩ : FilterData).value ≠ []) ∧
    (fieldIndex [("f").toList] (("f").toList) ≠ none) ∧
    feature_matches_filters [("f").toList] [Value.str ("y").toList]
      [(("f").toList, ⟨("Bogus").toList, ("x").toList⟩)] = false :=
  ⟨by decide, by decide, by decide, by decide,
    C2_unknown_kind _ _ _ (("f").toList) ⟨("Bogus").toList, ("x").toList⟩
      (by decide) (by decide) (by decide) (by decide)⟩

/-- C3 (counterexample): on a layer without the reserved field the code
clears the filter and returns before `triggerRepaint`: no redraw is
requested there, contrary to the claim's "in both cases then requests a
redraw". -/
theorem C3_counterexample :
    (update_layer_visibility ⟨[("a").toList], ("old").toList, 0, 0⟩).subset = [] ∧
    (update_layer_visibility ⟨[("a").toList], ("old").toList, 0, 0⟩).repaints = 0 ∧
    (update_layer_visibility ⟨[("a").toList], ("old").toList, 0, 0⟩).canvasRefreshes = 0 :=
  ⟨by decide, by decide, by decide⟩

/-- C3 (amended): `update_layer_visibility` sets the subset string to
exactly `'"_fvt_vis" = 1'` and requests a repaint and a canvas refresh when
the reserved field exists; when it does not, it sets the empty subset
string (show all) and returns without requesting any redraw. -/
theorem C3_filter_update (L : LayerState) :
    (fieldIndex L.fields fvtName ≠ none →
      (update_layer_visibility L).subset = visSubsetExpr ∧
      (update_layer_visibility L).repaints = L.repaints + 1 ∧
      (update_layer_visibility L).canvasRefreshes = L.canvasRefreshes + 1) ∧
    (fieldIndex L.fields fvtName = none →
      (update_layer_visibility L).subset = [] ∧
      (update_layer_visibility L).repaints = L.repaints ∧
      (update_layer_visibility L).canvasRefreshes = L.canvasRefreshes) ∧
    visSubsetExpr = '"' :: (fvtName ++ ('"' :: (" = 1").toList)) := by
  refine ⟨?_, ?_, by decide⟩
  · intro h
    unfold update_layer_visibility
    cases hfi : fieldIndex L.fields fvtName with
    | none => exact absurd hfi h
    | some i => exact ⟨rfl, rfl, rfl⟩
  · intro h
    unfold update_layer_visibility
    rw [h]
    exact ⟨rfl, rfl, rfl⟩

/-- Witness for C3_filter_update on a layer carrying the reserved field. -/
theorem C3_witness :
    (update_layer_visibility ⟨[fvtName], [], 0, 0⟩).subset = visSubsetExpr ∧
    (update_layer_visibility ⟨[fvtName], [], 0, 0⟩).repaints = 0 + 1 ∧
    (update_layer_visibility ⟨[fvtName], [], 0, 0⟩).canvasRefreshes = 0 + 1 :=
  (C3_filter_update ⟨[fvtName], [], 0, 0⟩).1 (by decide)

/-- C9: the panel's visibility read is "non-null and nonzero", not
"equals 1": every such stored value reads as visible, and whenever it
differs from the integer 1 the row filter installed by
`update_layer_visibility` excludes the feature from rendering. -/
theorem C9_visible_read_vs_filter (v : Value) (attrs : List Value) (i : Nat)
    (hv : attrAt attrs i = v)
    (hnull : v ≠ Value.null) (hzero : pyEqZero v = false) :
    is_visible (some i) attrs = true ∧
    (v ≠ Value.int 1 →
      ∀ L : LayerState, fieldIndex L.fields fvtName ≠ none →
        rowFilterKeeps (update_layer_visibility L).subset v = false) := by
  constructor
  · simp [is_visible, hv, hnull, hzero]
  · intro h1 L hL
    have hsub : (update_layer_visibility L).subset = visSubsetExpr := by
      unfold update_layer_visibility
      cases hfi : fieldIndex L.fields fvtName with
      | none => exact absurd hfi hL
      | some i => rfl
    rw [hsub]
    unfold rowFilterKeeps
    rw [if_neg (by decide), if_pos rfl]
    exact beq_eq_false_iff_ne.mpr h1

/-- Witness for C9_visible_read_vs_filter at the stored value 2. -/
theorem C9_witness :
    is_visible (some 0) [Value.int 2] = true ∧
    rowFilterKeeps (update_layer_visibility ⟨[fvtName], [], 0, 0⟩).subset
      (Value.int 2) = false :=
  ⟨(C9_visible_read_vs_filter (Value.int 2) [Value.int 2] 0 (by decide)
      (by decide) (by decide)).1,
    (C9_visible_read_vs_filter (Value.int 2) [Value.int 2] 0 (by decide)
      (by decide) (by decide)).2 (by decide) ⟨[fvtName], [], 0, 0⟩ (by decide)⟩

/-- C10: the escaping is not injective: a component containing the literal
escape token `_COLON_` (resp. `_PIPE_`) reloads as `:` (resp. `|`), so
saving and then reloading does not reproduce the original mapping. -/
theorem C10_escape_not_injective :
    parseFilters (serializeFilters
        [(("f").toList, ("Contains").toList, ("_COLON_").toList)]) =
      [(("f").toList, ("Contains").toList, (":").toList)] ∧
    parseFilters (serializeFilters
        [(("g").toList, ("Equals").toList, ("_PIPE_").toList)]) =
      [(("g").toList, ("Equals").toList, ("|").toList)] ∧
    [(("f").toList, ("Contains").toList, (":").toList)] ≠
      [(("f").toList, ("Contains").toList, ("_COLON_").toList)] ∧
    [(("g").toList, ("Equals").toList, ("|").toList)] ≠
      [(("g").toList, ("Equals").toList, ("_PIPE_").toList)] :=
  ⟨by decide, by decide, by decide, by decide⟩

/-- C4 (counterexample): the claim's universal round trip fails: the value
`":_COLON_"` contains an embedded `:`, yet the mapping reloads with value
`"::"` — the escaped colon and the literal token collapse on unescaping. -/
theorem C4_counterexample :
    ':' ∈ (":_COLON_").toList ∧
    parseFilters (serializeFilters
        [(("f").toList, ("Contains").toList, (":_COLON_").toList)]) =
      [(("f").toList, ("Contains").toList, ("::").toList)] ∧
    [(("f").toList, ("Contains").toList, ("::").toList)] ≠
      [(("f").toList, ("Contains").toList, (":_COLON_").toList)] :=
  ⟨by decide, by decide, by decide⟩

/-- C4 (amended): for mappings with distinct field names none of whose
components contains the letter run `COLON` or `PIPE` (this excludes the
escape tokens `_COLON_` / `_PIPE_` as well as fragments that merge with an
escaped `:` or `|`), serializing and then parsing back reproduces the
mapping exactly — embedded `:` and `|` characters included. -/
theorem C4_roundtrip (rules : List FilterTriple)
    (hnd : (rules.map (fun r => r.1)).Nodup)
    (hsafe : ∀ r ∈ rules, compSafe r.1 = true ∧ compSafe r.2.1 = true ∧
        compSafe r.2.2 = true) :
    parseFilters (serializeFilters rules) = rules :=
  parseFilters_serializeFilters rules hnd hsafe

/-- Witness for C4_roundtrip: a mapping with `:` and `|` embedded in field
names and values. -/
theorem C4_witness :
    (exampleRules.map (fun r => r.1)).Nodup ∧
    (∀ r ∈ exampleRules, compSafe r.1 = true ∧ compSafe r.2.1 = true ∧
        compSafe r.2.2 = true) ∧
    parseFilters (serializeFilters exampleRules) = exampleRules :=
  ⟨by decide, by decide, C4_roundtrip exampleRules (by decide) (by decide)⟩

/-- C5: a numeric rule parses both the feature's value and the rule text as
numbers, treats a null feature value as 0, and evaluates to non-matching
(rejecting the feature, without error) when either side fails to parse. -/
theorem C5_numeric_rules (fields : List Str) (attrs : List Value)
    (fn : Str) (i : Nat) (fd : FilterData)
    (hidx : fieldIndex fields fn = some i)
    (hk : fd.kind = kGreater ∨ fd.kind = kLess)
    (hval : pyStrip fd.value ≠ []) :
    (∀ b : Dec, attrAt attrs i = Value.null →
      parseFloat (pyStrip fd.value) = some b →
      feature_matches_filters fields attrs [(fn, fd)] =
        (if fd.kind = kGreater then decide (b.toRat < 0)
         else decide ((0:ℚ) < b.toRat))) ∧
    (attrAt attrs i ≠ Value.null → floatOfValue (attrAt attrs i) = none →
      feature_matches_filters fields attrs [(fn, fd)] = false) ∧
    (parseFloat (pyStrip fd.value) = none →
      feature_matches_filters fields attrs [(fn, fd)] = false) ∧
    (∀ a b : Dec, attrAt attrs i ≠ Value.null →
      floatOfValue (attrAt attrs i) = some a →
      parseFloat (pyStrip fd.value) = some b →
      feature_matches_filters fields attrs [(fn, fd)] =
        (if fd.kind = kGreater then decide (b.toRat < a.toRat)
         else decide (a.toRat < b.toRat))) := by
  have hzero : (⟨0, 0⟩ : Dec).toRat = 0 := by
    simp [Dec.toRat]
  have hcore : ∀ cmp : Dec → Dec → Bool,
      ruleEval fields attrs fn fd =
        some (match (match attrAt attrs i with
                     | .null => some (⟨0, 0⟩ : Dec)
                     | v => floatOfValue v), parseFloat (pyStrip fd.value) with
              | some a, some b => cmp a b
              | _, _ => false) →
      (∀ b : Dec, attrAt attrs i = Value.null →
        parseFloat (pyStrip fd.value) = some b →
        feature_matches_filters fields attrs [(fn, fd)] = cmp ⟨0, 0⟩ b) ∧
      (attrAt attrs i ≠ Value.null → floatOfValue (attrAt attrs i) = none →
        feature_matches_filters fields attrs [(fn, fd)] = false) ∧
      (parseFloat (pyStrip fd.value) = none →
        feature_matches_filters fields attrs [(fn, fd)] = false) ∧
      (∀ a b : Dec, attrAt attrs i ≠ Value.null →
        floatOfValue (attrAt attrs i) = some a →
        parseFloat (pyStrip fd.value) = some b →
        feature_matches_filters fields attrs [(fn, fd)] = cmp a b) := by
    intro cmp hre
    refine ⟨?_, ?_, ?_, ?_⟩
    · intro b hnull hb
      rw [fmf_singleton, hre, hnull, hb]
      simp
    · intro hnn hno
      rw [fmf_singleton, hre]
      cases hv : attrAt attrs i with
      | null => exact absurd hv hnn
      | int n =>
        rw [hv] at hno
        simp [floatOfValue] at hno
      | str s =>
        rw [hv] at hno
        simp [hno]
    · intro hno
      rw [fmf_singleton, hre, hno]
      cases hv : attrAt attrs i with
      | null => simp
      | int n => simp [floatOfValue]
      | str s =>
        cases hps : parseFloat s <;> simp [floatOfValue, hps]
    · intro a b hnn ha hb
      rw [fmf_singleton, hre, hb]
      cases hv : attrAt attrs i with
      | null => exact absurd hv hnn
      | int n =>
        rw [hv] at ha
        simp [ha]
      | str s =>
        rw [hv] at ha
        simp [ha]
  rcases hk with hg | hg
  · have hres := hcore (fun a b => Dec.blt b a)
      (ruleEval_greater fields attrs fn i fd hidx hg hval)
    refine ⟨?_, hres.2.1, hres.2.2.1, ?_⟩
    · intro b hnull hb
      rw [hres.1 b hnull hb]
      simp [hg, Dec.blt_eq_decide, hzero]
    · intro a b hnn ha hb
      rw [hres.2.2.2 a b hnn ha hb]
      simp [hg, Dec.blt_eq_decide]
  · have hres := hcore (fun a b => Dec.blt a b)
      (ruleEval_less fields attrs fn i fd hidx hg hval)
    have hgne : ¬ (fd.kind = kGreater) := by
      rw [hg]
      decide
    refine ⟨?_, hres.2.1, hres.2.2.1, ?_⟩
    · intro b hnull hb
      rw [hres.1 b hnull hb]
      simp [if_neg hgne, Dec.blt_eq_decide, hzero]
    · intro a b hnn ha hb
      rw [hres.2.2.2 a b hnn ha hb]
      simp [if_neg hgne, Dec.blt_eq_decide]

/-- Witness for C5_numeric_rules: the spec's `pop > 100` examples — `"250"`
matches, `"abc"` is rejected without error. -/
theorem C5_witness :
    (fieldIndex [("pop").toList] (("pop").toList) = some 0 ∧
      ((⟨kGreater, ("100").toList⟩ : FilterData).kind = kGreater ∨
        (⟨kGreater, ("100").toList⟩ : FilterData).kind = kLess) ∧
      pyStrip (⟨kGreater, ("100").toList⟩ : FilterData).value ≠ []) ∧
    feature_matches_filters [("pop").toList] [Value.str ("250").toList]
      [(("pop").toList, ⟨kGreater, ("100").toList⟩)] =
      (if (⟨kGreater, ("100").toList⟩ : FilterData).kind = kGreater
       then decide ((⟨100, 0⟩ : Dec).toRat < (⟨250, 0⟩ : Dec).toRat)
       else decide ((⟨250, 0⟩ : Dec).toRat < (⟨100, 0⟩ : Dec).toRat)) ∧
    feature_matches_filters [("pop").toList] [Value.str ("abc").toList]
      [(("pop").toList, ⟨kGreater, ("100").toList⟩)] = false :=
  ⟨⟨by decide, Or.inl (by decide), by decide⟩,
    (C5_numeric_rules [("pop").toList] [Value.str ("250").toList]
        (("pop").toList) 0 ⟨kGreater, ("100").toList⟩ (by decide)
        (Or.inl (by decide)) (by decide)).2.2.2
      ⟨250, 0⟩ ⟨100, 0⟩ (by decide) (by decide) (by decide),
    (C5_numeric_rules [("pop").toList] [Value.str ("abc").toList]
        (("pop").toList) 0 ⟨kGreater, ("100").toList⟩ (by decide)
        (Or.inl (by decide)) (by decide)).2.1
      (by decide) (by decide)⟩

/-- C6: the empty rule set always matches; in general the feature passes
iff every rule holds (logical AND); and a rule set whose prefix passes and
whose next rule fails rejects the feature whatever the remaining rules are
(short-circuit at the first non-match). -/
theorem C6_and_semantics (fields : List Str) (attrs : List Value) :
    feature_matches_filters fields attrs [] = true ∧
    (∀ rules : List (Str × FilterData),
      feature_matches_filters fields attrs rules =
        rules.all (fun r => !(ruleEval fields attrs r.1 r.2 == some false))) ∧
    (∀ (pre post : List (Str × FilterData)) (r : Str × FilterData),
      (∀ x ∈ pre, ruleEval fields attrs x.1 x.2 ≠ some false) →
      ruleEval fields attrs r.1 r.2 = some false →
      feature_matches_filters fields attrs (pre ++ r :: post) = false) := by
  refine ⟨rfl, fmf_eq_all fields attrs, ?_⟩
  intro pre post r _ hr
  rw [fmf_eq_all]
  simp [List.all_append, List.all_cons, hr]

/-- Witness for C6_and_semantics: one passing rule followed by one failing
rule rejects the feature, with a further rule never reached. -/
theorem C6_witness :
    (∀ x ∈ ([(("a").toList, (⟨kContains, ("x").toList⟩ : FilterData))] :
        List (Str × FilterData)),
      ruleEval [("a").toList] [Value.str ("xy").toList] x.1 x.2 ≠ some false) ∧
    ruleEval [("a").toList] [Value.str ("xy").toList] (("a").toList)
      ⟨kContains, ("z").toList⟩ = some false ∧
    feature_matches_filters [("a").toList] [Value.str ("xy").toList]
      ([(("a").toList, ⟨kContains, ("x").toList⟩)] ++
        ((("a").toList, ⟨kContains, ("z").toList⟩) ::
          [(("a").toList, ⟨kContains, ("q").toList⟩)])) = false :=
  ⟨by decide, by decide,
    (C6_and_semantics [("a").toList] [Value.str ("xy").toList]).2.2
      [(("a").toList, ⟨kContains, ("x").toList⟩)]
      [(("a").toList, ⟨kContains, ("q").toList⟩)]
      ((("a").toList), ⟨kContains, ("z").toList⟩) (by decide) (by decide)⟩

/-- C7: `ensure_visibility_field` is idempotent: on a layer already
carrying the reserved field it is a no-op returning success (so no second
field is created and every feature's flag value is left unchanged), and
after any successful call a second call is such a no-op. -/
theorem C7_ensure_idempotent (L : VLayer) :
    (fieldIndex L.fields fvtName ≠ none → ensure_visibility_field L = (true, L)) ∧
    ((ensure_visibility_field L).1 = true →
      ensure_visibility_field (ensure_visibility_field L).2 =
        (true, (ensure_visibility_field L).2)) := by
  have hbase : ∀ M : VLayer, fieldIndex M.fields fvtName ≠ none →
      ensure_visibility_field M = (true, M) := by
    intro M hM
    unfold ensure_visibility_field
    cases hfi : fieldIndex M.fields fvtName with
    | none => exact absurd hfi hM
    | some j => rfl
  refine ⟨hbase L, ?_⟩
  intro hsucc
  cases hfi : fieldIndex L.fields fvtName with
  | some j =>
    have h1 : ensure_visibility_field L = (true, L) := by
      apply hbase
      rw [hfi]
      intro hcon
      exact Option.noConfusion hcon
    rw [h1]
    apply hbase
    rw [hfi]
    intro hcon
    exact Option.noConfusion hcon
  | none =>
    by_cases he : L.editable = true
    · have hfail : ensure_visibility_field L = (false, L) := by
        unfold ensure_visibility_field
        rw [hfi]
        simp [he]
      rw [hfail] at hsucc
      exact Bool.noConfusion hsucc
    · by_cases hc : L.commitOk = true
      · have hfields : (ensure_visibility_field L).2.fields = L.fields ++ [fvtName] := by
          unfold ensure_visibility_field
          rw [hfi]
          simp [he, hc]
        apply hbase
        rw [hfields]
        exact fieldIndex_append_self L.fields
      · have hfail : ensure_visibility_field L = (false, L) := by
          unfold ensure_visibility_field
          rw [hfi]
          simp [he, hc]
        rw [hfail] at hsucc
        exact Bool.noConfusion hsucc

/-- Witness for C7_ensure_idempotent: a second call on a layer carrying the
field is a no-op, and a call after a successful creation is a no-op. -/
theorem C7_witness :
    (fieldIndex ([fvtName] : List Str) fvtName ≠ none ∧
      ensure_visibility_field ⟨[fvtName], [(1, [Value.int 0])], false, true⟩ =
        (true, ⟨[fvtName], [(1, [Value.int 0])], false, true⟩)) ∧
    ((ensure_visibility_field ⟨[("a").toList], [(1, [Value.int 5])], false, true⟩).1 = true ∧
      ensure_visibility_field
          (ensure_visibility_field ⟨[("a").toList], [(1, [Value.int 5])], false, true⟩).2 =
        (true, (ensure_visibility_field
          ⟨[("a").toList], [(1, [Value.int 5])], false, true⟩).2)) :=
  ⟨⟨by decide,
      (C7_ensure_idempotent ⟨[fvtName], [(1, [Value.int 0])], false, true⟩).1 (by decide)⟩,
    ⟨by decide,
      (C7_ensure_idempotent ⟨[("a").toList], [(1, [Value.int 5])], false, true⟩).2 (by decide)⟩⟩

/-- C8: with stored limit 0 (or negative) every filter-passing feature is
listed; with a positive limit n the list is exactly the first n
filter-passing features — the filter is applied to each candidate before it
counts toward the cap — and its length never exceeds n. -/
theorem C8_display_limit (feature_limit : Int) (fields : List Str)
    (selected_attrs : List Str) (layer_filters : List (Str × FilterData))
    (feats : List (Nat × List Value)) :
    (feature_limit ≤ 0 →
      on_layer_selected_features feature_limit fields selected_attrs layer_filters feats =
        (feats.filter (fun p => feature_matches_filters fields p.2
            (activeFilters layer_filters selected_attrs))).map
          (fun p => (p.1, p.2, is_visible (fieldIndex fields fvtName) p.2))) ∧
    (0 < feature_limit →
      on_layer_selected_features feature_limit fields selected_attrs layer_filters feats =
        ((feats.filter (fun p => feature_matches_filters fields p.2
            (activeFilters layer_filters selected_attrs))).map
          (fun p => (p.1, p.2, is_visible (fieldIndex fields fvtName) p.2))).take
          feature_limit.toNat ∧
      (on_layer_selected_features feature_limit fields selected_attrs layer_filters
          feats).length ≤ feature_limit.toNat) := by
  constructor
  · intro h
    unfold on_layer_selected_features
    rw [populateLoop_nolimit feature_limit h fields
      (activeFilters layer_filters selected_attrs) (fieldIndex fields fvtName) feats []]
    simp
  · intro h
    have heq := populateLoop_limit feature_limit h fields
      (activeFilters layer_filters selected_attrs) (fieldIndex fields fvtName) feats []
      (by simp; omega)
    constructor
    · unfold on_layer_selected_features
      rw [heq]
      simp
    · unfold on_layer_selected_features
      rw [heq]
      simp only [List.nil_append, List.length_take, List.length_nil, Nat.sub_zero]
      exact Nat.min_le_left _ _

/-- Witness for C8_display_limit: limit 2 over three passing features keeps
the first two. -/
theorem C8_witness :
    (0:Int) < 2 ∧
    (on_layer_selected_features 2 [("a").toList] [] []
        [(1, [Value.int 1]), (2, [Value.int 2]), (3, [Value.int 3])] =
      (([(1, [Value.int 1]), (2, [Value.int 2]), (3, [Value.int 3])].filter
          (fun p => feature_matches_filters [("a").toList] p.2
            (activeFilters [] []))).map
        (fun p => (p.1, p.2, is_visible (fieldIndex [("a").toList] fvtName) p.2))).take
        ((2:Int)).toNat ∧
      (on_layer_selected_features 2 [("a").toList] [] []
        [(1, [Value.int 1]), (2, [Value.int 2]), (3, [Value.int 3])]).length ≤
        ((2:Int)).toNat) :=
  ⟨by decide,
    (C8_display_limit 2 [("a").toList] [] []
      [(1, [Value.int 1]), (2, [Value.int 2]), (3, [Value.int 3])]).2 (by decide)⟩
